import Mathlib

/-!
Shallow embedding of a simplified Proof-of-Stake blockchain simulator
(script.py): blocks, a hash-linked chain, validator nodes, and the
consensus round orchestrator. Block hashing is modelled by an abstract
deterministic digest function over the hashed fields; stakes and amounts
are exact rationals; external effects (timestamps, fetched transactions,
the random leader draw, random stake factors) are explicit parameters.
-/

/-- Transaction: sender, receiver, amount, opaque metadata, creation time. -/
structure Transaction where
  sender : String
  receiver : String
  amount : ℚ
  data : List (String × String)
  timestamp : Nat
deriving DecidableEq

/-- The tuple of fields serialized by Block.calculate_hash: index, timestamp,
transactions, previous_hash, validator. The stored hash itself is not part
of the digest input. -/
structure HashInput where
  index : Nat
  timestamp : Nat
  transactions : List Transaction
  previous_hash : String
  validator : String
deriving DecidableEq

/-- Block: index, timestamp, transaction batch, previous-block hash, proposer
identity, and the content hash stored at construction. -/
structure Block where
  index : Nat
  timestamp : Nat
  transactions : List Transaction
  previous_hash : String
  validator : String
  hash : String
deriving DecidableEq

/-- The digest input of a block, exactly the fields Block.calculate_hash
serializes. -/
def hashInputOf (b : Block) : HashInput :=
  ⟨b.index, b.timestamp, b.transactions, b.previous_hash, b.validator⟩

/-- Block.calculate_hash: apply the digest function H to the canonical field
tuple of the block. -/
def calculate_hash (H : HashInput → String) (b : Block) : String :=
  H (hashInputOf b)

/-- The Block constructor: stores the given fields plus the construction-time
timestamp ts, and computes the hash of those fields once. -/
def mkBlock (H : HashInput → String) (index : Nat) (transactions : List Transaction)
    (previous_hash : String) (validator : String) (ts : Nat) : Block :=
  { index := index, timestamp := ts, transactions := transactions,
    previous_hash := previous_hash, validator := validator,
    hash := H ⟨index, ts, transactions, previous_hash, validator⟩ }

/-- The sentinel previous-hash of the genesis block: 64 zero characters. -/
def zeros64 : String := String.mk (List.replicate 64 '0')

/-- The genesis block: index 0, no transactions, sentinel previous-hash,
sentinel proposer identity. -/
def genesis_block (H : HashInput → String) (ts : Nat) : Block :=
  mkBlock H 0 [] zeros64 ("SYSTEM_GENESIS") ts

/-- Blockchain: the ordered list of blocks. -/
structure Blockchain where
  chain : List Block
deriving DecidableEq

/-- Fallback result of reading the last block of an empty chain; the Python
code would raise there, and no reachable chain is empty. -/
def outOfRangeBlock : Block := ⟨0, 0, [], "", "", ""⟩

/-- Blockchain construction: a fresh chain holding exactly the genesis
block. -/
def Blockchain.init (H : HashInput → String) (ts : Nat) : Blockchain :=
  ⟨[genesis_block H ts]⟩

/-- Blockchain.last_block: the most recently appended block. -/
def Blockchain.last_block (bc : Blockchain) : Block :=
  bc.chain.getLastD outOfRangeBlock

/-- Blockchain.is_block_valid: sequential index, matching previous hash, and
correct stored hash, checked in that order with short-circuit on the first
failure. -/
def is_block_valid (H : HashInput → String) (block previous_block : Block) : Bool :=
  if block.index ≠ previous_block.index + 1 then false
  else if block.previous_hash ≠ previous_block.hash then false
  else if block.hash ≠ calculate_hash H block then false
  else true

/-- Blockchain.add_block: validate against the current last block; on success
append and return true, otherwise leave the chain unchanged and return
false. -/
def add_block (H : HashInput → String) (bc : Blockchain) (b : Block) :
    Blockchain × Bool :=
  if is_block_valid H b bc.last_block then (⟨bc.chain ++ [b]⟩, true)
  else (bc, false)

/-- Unfolding of is_block_valid as the conjunction of its three checks. -/
lemma is_block_valid_iff (H : HashInput → String) (b p : Block) :
    is_block_valid H b p = true ↔
      b.index = p.index + 1 ∧ b.previous_hash = p.hash ∧
        b.hash = calculate_hash H b := by
  unfold is_block_valid
  by_cases h1 : b.index = p.index + 1 <;>
    by_cases h2 : b.previous_hash = p.hash <;>
      by_cases h3 : b.hash = calculate_hash H b <;>
        simp [h1, h2, h3]

/-- ValidatorNode: an address identity and a stake weight, bound to the shared
chain (the chain is passed explicitly at each call, mirroring the shared
reference). -/
structure ValidatorNode where
  address : String
  stake : ℚ
deriving DecidableEq

/-- ValidatorNode.propose_block: a new block extending the current chain tip:
index = tip index + 1, previous hash = tip hash, proposer = own address,
transactions = the given batch; the chain is read, never written. -/
def propose_block (H : HashInput → String) (bc : Blockchain) (address : String)
    (transactions : List Transaction) (ts : Nat) : Block :=
  mkBlock H (bc.last_block.index + 1) transactions bc.last_block.hash address ts

/-- ValidatorNode.validate_block: delegate to is_block_valid against the
current last block of the shared chain. -/
def validate_block (H : HashInput → String) (bc : Blockchain) (b : Block) : Bool :=
  is_block_valid H b bc.last_block

/-- PoSConsensusSimulator.consensus_threshold: two thirds of total stake must
approve a block. -/
def consensus_threshold : ℚ := 2 / 3

/-- The consensus check of run_simulation_round: approving stake divided by
total voting stake reaches the threshold. -/
def consensusReached (approving total : ℚ) : Bool :=
  decide (approving / total ≥ consensus_threshold)

/-- Result of the voting loop: total voting stake, approving stake, and the
addresses of the validators on which validate_block was actually invoked
(the boolean or in the loop short-circuits, so a validator whose address
equals the leader address never runs validate_block). -/
structure VoteTally where
  total_voting_stake : ℚ
  approving_stake : ℚ
  validate_calls : List String
deriving DecidableEq

/-- The voting loop of run_simulation_round: every validator contributes its
stake to the total; a validator whose address equals the leader address
approves automatically, every other validator invokes validate_block and
approves iff it returns true. -/
def tallyVotes (H : HashInput → String) (bc : Blockchain) (leader : ValidatorNode)
    (proposed : Block) : List ValidatorNode → VoteTally
  | [] => ⟨0, 0, []⟩
  | v :: vs =>
    let rest := tallyVotes H bc leader proposed vs
    if v.address = leader.address then
      ⟨v.stake + rest.total_voting_stake, v.stake + rest.approving_stake,
        rest.validate_calls⟩
    else if validate_block H bc proposed then
      ⟨v.stake + rest.total_voting_stake, v.stake + rest.approving_stake,
        v.address :: rest.validate_calls⟩
    else
      ⟨v.stake + rest.total_voting_stake, rest.approving_stake,
        v.address :: rest.validate_calls⟩

/-- Simulator state: the shared blockchain, the validator set, and the
pending-transaction mempool. -/
structure SimState where
  blockchain : Blockchain
  validators : List ValidatorNode
  mempool : List Transaction
deriving DecidableEq

/-- Terminal status of one simulation round. -/
inductive RoundOutcome where
  | skipped
  | committed
  | rejected
  | criticalFailure
deriving DecidableEq

/-- PoSConsensusSimulator._create_validators: one validator per generated
(address, stake factor) pair, with stake = initial stake times the factor
drawn from the interval from 0.8 to 1.5. -/
def create_validators (initial_stake : ℚ) (gens : List (String × ℚ)) :
    List ValidatorNode :=
  gens.map fun g => ⟨g.1, initial_stake * g.2⟩

/-- PoSConsensusSimulator.run_simulation_round. External effects are explicit
parameters: refill is the batch the mempool fetch would append when the pool
is low, leader is the stake-weighted random draw, ts the construction time of
the proposed block. Steps: refill a low pool; skip on an empty pool; propose
from the first five pooled transactions; tally stake-weighted votes; commit
via add_block and drain the batch when the threshold is met, otherwise
discard the block. -/
def run_simulation_round (H : HashInput → String) (st : SimState)
    (refill : List Transaction) (leader : ValidatorNode) (ts : Nat) :
    SimState × RoundOutcome :=
  let mempool1 :=
    if st.mempool.length < 5 then st.mempool ++ refill else st.mempool
  if mempool1.isEmpty then
    ({ st with mempool := mempool1 }, .skipped)
  else
    let transactions_for_block := mempool1.take 5
    let proposed :=
      propose_block H st.blockchain leader.address transactions_for_block ts
    let tally := tallyVotes H st.blockchain leader proposed st.validators
    if consensusReached tally.approving_stake tally.total_voting_stake then
      let res := add_block H st.blockchain proposed
      if res.2 then
        (⟨res.1, st.validators, mempool1.drop 5⟩, .committed)
      else
        (⟨st.blockchain, st.validators, mempool1⟩, .criticalFailure)
    else
      (⟨st.blockchain, st.validators, mempool1⟩, .rejected)

/-- The first block of a well-formed chain: index 0, no transactions, and the
all-zero sentinel previous-hash. -/
def isGenesisShaped (b : Block) : Prop :=
  b.index = 0 ∧ b.transactions = [] ∧ b.previous_hash = zeros64

/-- Every block of the list extends its predecessor, starting from p:
strictly sequential indices and hash linkage. -/
def linkedFrom (p : Block) : List Block → Prop
  | [] => True
  | b :: rest => b.index = p.index + 1 ∧ b.previous_hash = p.hash ∧ linkedFrom b rest

/-- The stored hash of the block equals recomputing the hash of its own
fields. -/
def hashOk (H : HashInput → String) (b : Block) : Prop :=
  b.hash = calculate_hash H b

/-- Chain integrity: non-empty, genesis-shaped first block, sequential
indices and hash linkage between adjacent blocks, and hash integrity of
every block. -/
def chainIntegrity (H : HashInput → String) : List Block → Prop
  | [] => False
  | g :: rest =>
    isGenesisShaped g ∧ linkedFrom g rest ∧ ∀ b ∈ g :: rest, hashOk H b

/-- Chain states reachable from Blockchain construction via add_block calls
only. -/
inductive Reachable (H : HashInput → String) : Blockchain → Prop where
  | init (ts : Nat) : Reachable H (Blockchain.init H ts)
  | step (bc : Blockchain) (b : Block) :
      Reachable H bc → Reachable H (add_block H bc b).1

lemma getLastD_append_singleton (l : List Block) (b d : Block) :
    (l ++ [b]).getLastD d = b := by
  induction l generalizing d with
  | nil => rw [List.nil_append, List.getLastD_cons]; rfl
  | cons x xs ih => rw [List.cons_append, List.getLastD_cons]; exact ih x

lemma linkedFrom_append (p b : Block) (l : List Block)
    (hl : linkedFrom p l)
    (hi : b.index = (l.getLastD p).index + 1)
    (hh : b.previous_hash = (l.getLastD p).hash) :
    linkedFrom p (l ++ [b]) := by
  induction l generalizing p with
  | nil =>
    exact ⟨hi, hh, trivial⟩
  | cons x xs ih =>
    obtain ⟨h1, h2, h3⟩ := hl
    rw [List.getLastD_cons] at hi hh
    exact ⟨h1, h2, ih x h3 hi hh⟩

lemma chainIntegrity_append (H : HashInput → String) (l : List Block) (b : Block)
    (hinv : chainIntegrity H l)
    (hv : is_block_valid H b (l.getLastD outOfRangeBlock) = true) :
    chainIntegrity H (l ++ [b]) := by
  match l with
  | [] => exact absurd hinv id
  | g :: rest =>
    rw [List.getLastD_cons] at hv
    obtain ⟨hg, hlink, hhash⟩ := hinv
    obtain ⟨hvi, hvp, hvh⟩ := (is_block_valid_iff H b _).mp hv
    refine ⟨hg, linkedFrom_append g b rest hlink hvi hvp, ?_⟩
    intro x hx
    rcases List.mem_cons.mp hx with rfl | hx'
    · exact hhash x (List.mem_cons_self x rest)
    · rcases List.mem_append.mp hx' with hx'' | hx''
      · exact hhash x (List.mem_cons_of_mem g hx'')
      · rcases List.mem_singleton.mp hx'' with rfl
        exact hvh

lemma chainIntegrity_init (H : HashInput → String) (ts : Nat) :
    chainIntegrity H (Blockchain.init H ts).chain := by
  refine ⟨⟨rfl, rfl, rfl⟩, trivial, ?_⟩
  intro b hb
  rcases List.mem_singleton.mp hb with rfl
  rfl

lemma add_block_length_mono (H : HashInput → String) (bc : Blockchain) (b : Block) :
    bc.chain.length ≤ ((add_block H bc b).1).chain.length := by
  unfold add_block
  split <;> simp

/-- C1: every chain state reachable from Blockchain construction via
add_block calls only satisfies chain integrity (non-empty chain,
genesis-shaped first block with the all-zero sentinel previous-hash,
strictly sequential indices and hash linkage between adjacent blocks, and
every stored hash equal to recomputing the hash of the own fields of the
block), and the chain length never decreases across add_block operations. -/
theorem reachable_chainIntegrity (H : HashInput → String) (bc : Blockchain)
    (h : Reachable H bc) :
    chainIntegrity H bc.chain ∧
      ∀ b : Block, bc.chain.length ≤ ((add_block H bc b).1).chain.length := by
  refine ⟨?_, fun b => add_block_length_mono H bc b⟩
  induction h with
  | init ts => exact chainIntegrity_init H ts
  | step bc' b' _ ih =>
    unfold add_block
    split
    · exact chainIntegrity_append H bc'.chain b' ih (by assumption)
    · exact ih

/-- A concrete digest function used to instantiate the abstract hash in
closed evaluations: the decimal rendering of the block index. -/
def hashC : HashInput → String := fun d => toString d.index

/-- A freshly constructed chain under the concrete digest. -/
def bc0 : Blockchain := Blockchain.init hashC 0

/-- A block validly extending the fresh chain. -/
def blk1 : Block := propose_block hashC bc0 ("VALIDATOR_A") [] 1

/-- The chain after appending blk1. -/
def bc1 : Blockchain := (add_block hashC bc0 blk1).1

/-- A block proposed against the fresh chain, evaluated after the chain
advanced. -/
def staleBlk : Block := propose_block hashC bc0 ("VALIDATOR_B") [] 2

/-- Witness for C1: a freshly constructed chain satisfies chain integrity,
and an add_block call never shrinks it. -/
theorem reachable_chainIntegrity_witness :
    chainIntegrity hashC (Blockchain.init hashC 0).chain ∧
      (Blockchain.init hashC 0).chain.length ≤
        ((add_block hashC (Blockchain.init hashC 0) blk1).1).chain.length :=
  ⟨(reachable_chainIntegrity hashC _ (Reachable.init 0)).1,
    (reachable_chainIntegrity hashC _ (Reachable.init 0)).2 blk1⟩

/-- C2: add_block returns true iff is_block_valid holds of the candidate and
the current last block; on true the chain afterwards is the old chain with
the candidate appended, and on false the whole chain state is unchanged. -/
theorem add_block_gate (H : HashInput → String) (bc : Blockchain) (b : Block) :
    ((add_block H bc b).2 = true ↔ is_block_valid H b bc.last_block = true) ∧
      ((add_block H bc b).2 = true → (add_block H bc b).1.chain = bc.chain ++ [b]) ∧
      ((add_block H bc b).2 = false → (add_block H bc b).1 = bc) := by
  unfold add_block
  split <;> simp_all

/-- Witness for C2: the gate at a concrete chain and a concrete valid block,
with both implications of the gate discharged. -/
theorem add_block_gate_witness :
    (add_block hashC bc0 blk1).1.chain = bc0.chain ++ [blk1] ∧
      (add_block hashC bc0 blk1).2 = true :=
  ⟨(add_block_gate hashC bc0 blk1).2.1 (by decide),
    (add_block_gate hashC bc0 blk1).1.mpr (by decide)⟩

/-- A block with index 1 but a previous-hash matching nothing, used to
exercise the second validity check. -/
def badPrevBlk : Block := mkBlock hashC 1 [] "deadbeef" "VALIDATOR_C" 3

/-- C3: is_block_valid is a total boolean predicate that is true iff the
candidate has the successor index of the previous block, its previous-hash
equals the hash of the previous block, and its stored hash equals
recomputing its own hash; the index check decides first and the
previous-hash check second, each forcing false on its own. -/
theorem is_block_valid_spec (H : HashInput → String) (b p : Block) :
    (is_block_valid H b p = true ↔
      b.index = p.index + 1 ∧ b.previous_hash = p.hash ∧
        b.hash = calculate_hash H b) ∧
      (b.index ≠ p.index + 1 → is_block_valid H b p = false) ∧
      (b.index = p.index + 1 → b.previous_hash ≠ p.hash →
        is_block_valid H b p = false) := by
  refine ⟨is_block_valid_iff H b p, fun h => ?_, fun h1 h2 => ?_⟩
  · unfold is_block_valid
    simp [h]
  · unfold is_block_valid
    simp [h1, h2]

/-- Witness for C3: the predicate at concrete blocks, with every hypothesis
of the specification discharged on a concrete side. -/
theorem is_block_valid_spec_witness :
    is_block_valid hashC blk1 bc0.last_block = true ∧
      is_block_valid hashC (genesis_block hashC 0) (genesis_block hashC 0) = false ∧
      is_block_valid hashC badPrevBlk bc0.last_block = false :=
  ⟨(is_block_valid_spec hashC blk1 bc0.last_block).1.mpr (by decide),
    (is_block_valid_spec hashC (genesis_block hashC 0) (genesis_block hashC 0)).2.1
      (by decide),
    (is_block_valid_spec hashC badPrevBlk bc0.last_block).2.2 (by decide) (by decide)⟩

/-- C8: propose_block builds a block whose index is the tip index plus one,
whose previous-hash is the tip hash, whose proposer field is the proposing
validator address, and whose transaction list is exactly the given batch;
it reads the chain and returns the block without touching the chain. -/
theorem propose_block_spec (H : HashInput → String) (bc : Blockchain)
    (address : String) (txs : List Transaction) (ts : Nat) :
    (propose_block H bc address txs ts).index = bc.last_block.index + 1 ∧
      (propose_block H bc address txs ts).previous_hash = bc.last_block.hash ∧
      (propose_block H bc address txs ts).validator = address ∧
      (propose_block H bc address txs ts).transactions = txs :=
  ⟨rfl, rfl, rfl, rfl⟩

/-- C9: validate_block equals is_block_valid evaluated against the current
last block of the chain at call time; in particular, when the chain has
advanced so that the candidate index or previous-hash no longer matches the
current tip, validate_block returns false. -/
theorem validate_block_spec (H : HashInput → String) (bc : Blockchain) (b : Block) :
    validate_block H bc b = is_block_valid H b bc.last_block ∧
      (b.index ≠ bc.last_block.index + 1 ∨ b.previous_hash ≠ bc.last_block.hash →
        validate_block H bc b = false) := by
  refine ⟨rfl, fun h => ?_⟩
  unfold validate_block is_block_valid
  rcases h with h | h
  · simp [h]
  · rcases eq_or_ne b.index (bc.last_block.index + 1) with h2 | h2 <;> simp [h, h2]

/-- Witness for C9: a block proposed against the fresh chain is rejected
once the chain has advanced by one block. -/
theorem validate_block_spec_witness : validate_block hashC bc1 staleBlk = false :=
  (validate_block_spec hashC bc1 staleBlk).2 (Or.inr (by decide))

lemma tallyVotes_spec (H : HashInput → String) (bc : Blockchain)
    (leader : ValidatorNode) (proposed : Block) (vs : List ValidatorNode) :
    (tallyVotes H bc leader proposed vs).total_voting_stake
        = (vs.map ValidatorNode.stake).sum ∧
      (tallyVotes H bc leader proposed vs).approving_stake
        = ((vs.filter fun v => decide (v.address = leader.address)
            || validate_block H bc proposed).map ValidatorNode.stake).sum ∧
      (tallyVotes H bc leader proposed vs).validate_calls
        = (vs.filter fun v => decide (v.address ≠ leader.address)).map
            ValidatorNode.address := by
  induction vs with
  | nil => exact ⟨rfl, rfl, rfl⟩
  | cons v vs ih =>
    obtain ⟨h1, h2, h3⟩ := ih
    by_cases ha : v.address = leader.address
    · simp [tallyVotes, ha, h1, h2, h3]
    · by_cases hv : validate_block H bc proposed <;>
        simp [tallyVotes, ha, hv, h1, h2, h3]

/-- C5: in the voting loop, with validator addresses identifying validators
uniquely, the leader stake counts as approving and validate_block is never
invoked on the leader, every other validator has validate_block invoked and
its full stake counts toward the approving total iff that call returns true,
and the total voting stake is the sum of all validator stakes, leader
included. -/
theorem tallyVotes_leader_auto (H : HashInput → String) (bc : Blockchain)
    (proposed : Block) (leader : ValidatorNode) (vs : List ValidatorNode)
    (huniq : ∀ v ∈ vs, v.address = leader.address → v = leader) :
    (tallyVotes H bc leader proposed vs).total_voting_stake
        = (vs.map ValidatorNode.stake).sum ∧
      leader.address ∉ (tallyVotes H bc leader proposed vs).validate_calls ∧
      (∀ v ∈ vs, v ≠ leader →
        v.address ∈ (tallyVotes H bc leader proposed vs).validate_calls) ∧
      (tallyVotes H bc leader proposed vs).approving_stake
        = ((vs.filter fun v => decide (v = leader)
            || validate_block H bc proposed).map ValidatorNode.stake).sum := by
  obtain ⟨h1, h2, h3⟩ := tallyVotes_spec H bc leader proposed vs
  refine ⟨h1, ?_, ?_, ?_⟩
  · rw [h3]
    intro hmem
    rcases List.mem_map.mp hmem with ⟨v, hvf, hva⟩
    rcases List.mem_filter.mp hvf with ⟨_, hvne⟩
    exact (of_decide_eq_true hvne) hva
  · intro v hv hvl
    rw [h3]
    refine List.mem_map.mpr ⟨v, List.mem_filter.mpr ⟨hv, ?_⟩, rfl⟩
    exact decide_eq_true (fun hva => hvl (huniq v hv hva))
  · rw [h2]
    have hfe : (vs.filter fun v => decide (v.address = leader.address)
          || validate_block H bc proposed)
        = (vs.filter fun v => decide (v = leader)
          || validate_block H bc proposed) := by
      apply List.filter_congr
      intro v hv
      by_cases hveq : v = leader
      · subst hveq
        simp
      · have hvne : ¬ v.address = leader.address := fun hva => hveq (huniq v hv hva)
        simp [hvne, hveq]
    rw [hfe]

/-- Witness for C5: a two-validator set with distinct addresses, the first
validator acting as leader. -/
theorem tallyVotes_leader_auto_witness :
    (tallyVotes hashC bc0 (⟨"A", 100⟩ : ValidatorNode) blk1
        [⟨"A", 100⟩, ⟨"B", 50⟩]).total_voting_stake
      = (([⟨"A", 100⟩, ⟨"B", 50⟩] : List ValidatorNode).map ValidatorNode.stake).sum ∧
    "A" ∉ (tallyVotes hashC bc0 (⟨"A", 100⟩ : ValidatorNode) blk1
        [⟨"A", 100⟩, ⟨"B", 50⟩]).validate_calls :=
  ⟨(tallyVotes_leader_auto hashC bc0 blk1 ⟨"A", 100⟩ [⟨"A", 100⟩, ⟨"B", 50⟩]
      (by decide)).1,
    (tallyVotes_leader_auto hashC bc0 blk1 ⟨"A", 100⟩ [⟨"A", 100⟩, ⟨"B", 50⟩]
      (by decide)).2.1⟩

lemma add_block_propose (H : HashInput → String) (bc : Blockchain)
    (address : String) (txs : List Transaction) (ts : Nat) :
    add_block H bc (propose_block H bc address txs ts) =
      (⟨bc.chain ++ [propose_block H bc address txs ts]⟩, true) := by
  have h : is_block_valid H (propose_block H bc address txs ts) bc.last_block
      = true :=
    (is_block_valid_iff H _ _).mpr ⟨rfl, rfl, rfl⟩
  unfold add_block
  rw [h]
  simp

lemma run_simulation_round_eq (H : HashInput → String) (st : SimState)
    (refill : List Transaction) (leader : ValidatorNode) (ts : Nat)
    (hpool : (if st.mempool.length < 5 then st.mempool ++ refill
      else st.mempool) ≠ []) :
    run_simulation_round H st refill leader ts =
      if consensusReached
          (tallyVotes H st.blockchain leader
            (propose_block H st.blockchain leader.address
              ((if st.mempool.length < 5 then st.mempool ++ refill
                else st.mempool).take 5) ts)
            st.validators).approving_stake
          (tallyVotes H st.blockchain leader
            (propose_block H st.blockchain leader.address
              ((if st.mempool.length < 5 then st.mempool ++ refill
                else st.mempool).take 5) ts)
            st.validators).total_voting_stake then
        (⟨⟨st.blockchain.chain ++
            [propose_block H st.blockchain leader.address
              ((if st.mempool.length < 5 then st.mempool ++ refill
                else st.mempool).take 5) ts]⟩,
          st.validators,
          (if st.mempool.length < 5 then st.mempool ++ refill
            else st.mempool).drop 5⟩,
          RoundOutcome.committed)
      else
        (⟨st.blockchain, st.validators,
          if st.mempool.length < 5 then st.mempool ++ refill else st.mempool⟩,
          RoundOutcome.rejected) := by
  have hne : (if st.mempool.length < 5 then st.mempool ++ refill
      else st.mempool).isEmpty = false := by
    cases hm : (if st.mempool.length < 5 then st.mempool ++ refill
      else st.mempool) with
    | nil => exact absurd hm hpool
    | cons a l => rfl
  unfold run_simulation_round
  simp only [hne, Bool.false_eq_true, if_false, add_block_propose, if_true]

/-- C4: given a non-empty post-refill pool, the round commits exactly when
the consensus check holds of the tallied stakes; the threshold is exactly
two thirds, an approving stake of exactly 200 out of 300 commits, and an
approving stake of 199.999 out of 300 does not. -/
theorem run_round_commit_iff (H : HashInput → String) (st : SimState)
    (refill : List Transaction) (leader : ValidatorNode) (ts : Nat)
    (hpool : (if st.mempool.length < 5 then st.mempool ++ refill
      else st.mempool) ≠ []) :
    ((run_simulation_round H st refill leader ts).2 = RoundOutcome.committed ↔
      consensusReached
        (tallyVotes H st.blockchain leader
          (propose_block H st.blockchain leader.address
            ((if st.mempool.length < 5 then st.mempool ++ refill
              else st.mempool).take 5) ts)
          st.validators).approving_stake
        (tallyVotes H st.blockchain leader
          (propose_block H st.blockchain leader.address
            ((if st.mempool.length < 5 then st.mempool ++ refill
              else st.mempool).take 5) ts)
          st.validators).total_voting_stake = true) ∧
      consensus_threshold = 2 / 3 ∧
      consensusReached 200 300 = true ∧
      consensusReached (199999 / 1000) 300 = false := by
  refine ⟨?_, rfl, by with_unfolding_all decide, by with_unfolding_all decide⟩
  rw [run_simulation_round_eq H st refill leader ts hpool]
  cases hc : consensusReached
      (tallyVotes H st.blockchain leader
        (propose_block H st.blockchain leader.address
          ((if st.mempool.length < 5 then st.mempool ++ refill
            else st.mempool).take 5) ts)
        st.validators).approving_stake
      (tallyVotes H st.blockchain leader
        (propose_block H st.blockchain leader.address
          ((if st.mempool.length < 5 then st.mempool ++ refill
            else st.mempool).take 5) ts)
        st.validators).total_voting_stake <;>
    simp [hc]

/-- A concrete transaction with the given creation time. -/
def txC (n : Nat) : Transaction := ⟨"S", "R", 1, [], n⟩

/-- A concrete pool of seven transactions. -/
def pool7 : List Transaction :=
  [txC 1, txC 2, txC 3, txC 4, txC 5, txC 6, txC 7]

/-- A concrete validator. -/
def vA : ValidatorNode := ⟨"A", 100⟩

/-- A concrete simulator state: fresh chain, one validator, seven pooled
transactions. -/
def st7 : SimState := ⟨bc0, [vA], pool7⟩

/-- Witness for C4: a concrete round that commits, plus the two boundary
evaluations of the consensus check. -/
theorem run_round_commit_iff_witness :
    (run_simulation_round hashC st7 [] vA 9).2 = RoundOutcome.committed ∧
      consensusReached 200 300 = true ∧
      consensusReached (199999 / 1000) 300 = false :=
  ⟨(run_round_commit_iff hashC st7 [] vA 9 (by decide)).1.mpr
      (by with_unfolding_all decide),
    (run_round_commit_iff hashC st7 [] vA 9 (by decide)).2.2.1,
    (run_round_commit_iff hashC st7 [] vA 9 (by decide)).2.2.2⟩

/-- C6: given a non-empty post-refill pool, the proposed batch is the first
five pooled transactions in pool order (exactly min 5 (pool size) of them),
and a committing round appends the block built from that batch and removes
exactly that batch from the front of the pool. -/
theorem run_round_batch_drain (H : HashInput → String) (st : SimState)
    (refill : List Transaction) (leader : ValidatorNode) (ts : Nat)
    (hpool : (if st.mempool.length < 5 then st.mempool ++ refill
      else st.mempool) ≠ []) :
    ((run_simulation_round H st refill leader ts).2 = RoundOutcome.committed →
      (run_simulation_round H st refill leader ts).1.mempool
          = (if st.mempool.length < 5 then st.mempool ++ refill
            else st.mempool).drop 5 ∧
        (run_simulation_round H st refill leader ts).1.blockchain.chain
          = st.blockchain.chain ++
            [propose_block H st.blockchain leader.address
              ((if st.mempool.length < 5 then st.mempool ++ refill
                else st.mempool).take 5) ts]) ∧
      ((if st.mempool.length < 5 then st.mempool ++ refill
        else st.mempool).take 5).length
        = min 5 (if st.mempool.length < 5 then st.mempool ++ refill
          else st.mempool).length := by
  refine ⟨?_, List.length_take 5 _⟩
  rw [run_simulation_round_eq H st refill leader ts hpool]
  cases hc : consensusReached
      (tallyVotes H st.blockchain leader
        (propose_block H st.blockchain leader.address
          ((if st.mempool.length < 5 then st.mempool ++ refill
            else st.mempool).take 5) ts)
        st.validators).approving_stake
      (tallyVotes H st.blockchain leader
        (propose_block H st.blockchain leader.address
          ((if st.mempool.length < 5 then st.mempool ++ refill
            else st.mempool).take 5) ts)
        st.validators).total_voting_stake <;>
    simp [hc]

/-- Witness for C6: a committing round over a pool of seven transactions
leaves exactly the two leftover transactions, in their original order. -/
theorem run_round_batch_drain_witness :
    (run_simulation_round hashC st7 [] vA 9).1.mempool = [txC 6, txC 7] ∧
      (run_simulation_round hashC st7 [] vA 9).1.blockchain.chain
        = st7.blockchain.chain ++
          [propose_block hashC st7.blockchain vA.address
            [txC 1, txC 2, txC 3, txC 4, txC 5] 9] := by
  have h := (run_round_batch_drain hashC st7 [] vA 9 (by decide)).1
    (by with_unfolding_all decide)
  exact ⟨h.1.trans rfl, h.2.trans rfl⟩

/-- C7: a round that ends rejected leaves the blockchain and validator set
unchanged and leaves the mempool equal to the starting mempool followed by
the transactions added by the refill step (added only when the pool was
low), so every transaction present at the start of the round is still
present, in order, afterward. -/
theorem run_round_rejected_frame (H : HashInput → String) (st : SimState)
    (refill : List Transaction) (leader : ValidatorNode) (ts : Nat)
    (hrej : (run_simulation_round H st refill leader ts).2
      = RoundOutcome.rejected) :
    (run_simulation_round H st refill leader ts).1.blockchain = st.blockchain ∧
      (run_simulation_round H st refill leader ts).1.validators
        = st.validators ∧
      (run_simulation_round H st refill leader ts).1.mempool
        = st.mempool ++ (if st.mempool.length < 5 then refill else []) := by
  have hpool : (if st.mempool.length < 5 then st.mempool ++ refill
      else st.mempool) ≠ [] := by
    intro hnil
    have hskip : (run_simulation_round H st refill leader ts).2
        = RoundOutcome.skipped := by
      unfold run_simulation_round
      simp [hnil]
    rw [hskip] at hrej
    exact absurd hrej (by simp)
  rw [run_simulation_round_eq H st refill leader ts hpool] at hrej ⊢
  cases hc : consensusReached
      (tallyVotes H st.blockchain leader
        (propose_block H st.blockchain leader.address
          ((if st.mempool.length < 5 then st.mempool ++ refill
            else st.mempool).take 5) ts)
        st.validators).approving_stake
      (tallyVotes H st.blockchain leader
        (propose_block H st.blockchain leader.address
          ((if st.mempool.length < 5 then st.mempool ++ refill
            else st.mempool).take 5) ts)
        st.validators).total_voting_stake
  · refine ⟨by simp [hc], by simp [hc], ?_⟩
    rw [if_neg (by simp [hc])]
    by_cases hlen : st.mempool.length < 5 <;> simp [hlen]
  · rw [hc] at hrej
    simp at hrej

/-- A concrete simulator state with an empty validator set: approving and
total stake are both zero, and zero divided by zero falls below the
threshold, so the round is rejected. -/
def stR : SimState := ⟨bc0, [], pool7⟩

/-- Witness for C7: a concrete rejected round leaves chain, validators and
pool unchanged. -/
theorem run_round_rejected_frame_witness :
    (run_simulation_round hashC stR [] vA 9).1.blockchain = stR.blockchain ∧
      (run_simulation_round hashC stR [] vA 9).1.validators
        = stR.validators ∧
      (run_simulation_round hashC stR [] vA 9).1.mempool
        = stR.mempool ++ (if stR.mempool.length < 5 then [] else []) :=
  run_round_rejected_frame hashC stR [] vA 9 (by with_unfolding_all decide)

/-- C10: with at least one validator, a positive base stake and every stake
factor drawn from the interval from 0.8 to 1.5, every created validator has
a strictly positive stake, the total stake is strictly positive and hence a
nonzero divisor for the leader-selection weights, and the total voting
stake tallied in any round over these validators equals that same nonzero
total. -/
theorem create_validators_positive (initial_stake : ℚ)
    (gens : List (String × ℚ)) (hstake : 0 < initial_stake)
    (hfac : ∀ g ∈ gens, (8 : ℚ) / 10 ≤ g.2 ∧ g.2 ≤ 15 / 10)
    (hne : gens ≠ []) :
    (∀ v ∈ create_validators initial_stake gens, 0 < v.stake) ∧
      0 < ((create_validators initial_stake gens).map ValidatorNode.stake).sum ∧
      ((create_validators initial_stake gens).map ValidatorNode.stake).sum ≠ 0 ∧
      ∀ (H : HashInput → String) (bc : Blockchain) (leader : ValidatorNode)
        (proposed : Block),
        (tallyVotes H bc leader proposed
          (create_validators initial_stake gens)).total_voting_stake ≠ 0 := by
  have hpos : ∀ v ∈ create_validators initial_stake gens, 0 < v.stake := by
    intro v hv
    rcases List.mem_map.mp hv with ⟨g, hg, rfl⟩
    have h8 : (0 : ℚ) < g.2 := lt_of_lt_of_le (by norm_num) (hfac g hg).1
    exact mul_pos hstake h8
  have hsum : 0 < ((create_validators initial_stake gens).map
      ValidatorNode.stake).sum := by
    apply List.sum_pos
    · intro s hs
      rcases List.mem_map.mp hs with ⟨v, hv, rfl⟩
      exact hpos v hv
    · intro hmapnil
      exact hne (List.map_eq_nil_iff.mp (List.map_eq_nil_iff.mp hmapnil))
  refine ⟨hpos, hsum, ne_of_gt hsum, ?_⟩
  intro H bc leader proposed
  rw [(tallyVotes_spec H bc leader proposed
    (create_validators initial_stake gens)).1]
  exact ne_of_gt hsum

/-- Witness for C10: a single validator with base stake 1000 and factor 1. -/
theorem create_validators_positive_witness :
    (∀ v ∈ create_validators 1000 [("A", 1)], 0 < v.stake) ∧
      0 < ((create_validators 1000 [("A", 1)]).map ValidatorNode.stake).sum ∧
      ((create_validators 1000 [("A", 1)]).map ValidatorNode.stake).sum ≠ 0 ∧
      ∀ (H : HashInput → String) (bc : Blockchain) (leader : ValidatorNode)
        (proposed : Block),
        (tallyVotes H bc leader proposed
          (create_validators 1000 [("A", 1)])).total_voting_stake ≠ 0 :=
  create_validators_positive 1000 [("A", 1)] (by norm_num)
    (by intro g hg; rcases List.mem_singleton.mp hg with rfl; norm_num)
    (by simp)
